import Mathlib

/-!
# Verification of the Web-Tuner pitch pipeline (src/popup.js)

Shallow embedding of the pitch-estimation pipeline of `src/popup.js`:
`autoCorrelate`, `smoothFrequency`, `frequencyToNote`, `frequencyToCents`,
the per-frame step of `detectPitch`, and the state reset of `stopTuner`.

Conventions of the embedding:
* JS numbers are embedded as exact rationals (`ℚ`) in the pitch/smoothing
  code and as reals (`ℝ`) in the logarithmic note mapper; floating-point
  rounding is idealized away.
* The source normalizes the buffer by `rms = √(Σ v² / N)` and then sums
  products of normalized samples.  Since `(a/√s)·(b/√s) = a·b/s`, every
  correlation value equals the raw product sum divided by `rmsSq = Σ v² / N`,
  which keeps the whole computation inside `ℚ`; the gate `rms < 0.01` is
  `rmsSq < 0.0001` (both sides nonnegative).  Each embedded correlation is
  literally `rawSum / rmsSq / MAX_SAMPLES`, the exact value of the source's
  `(Σ nb[i]·nb[i+offset]) / MAX_SAMPLES`.
* Array reads are `Option`-indexed (`jsGet`): an out-of-bounds read makes the
  whole per-frame computation return `none`.  `autoCorrelate` therefore has
  type `Option (Option ℚ)`: the outer layer records absence of out-of-bounds
  accesses (proved to never fail), the inner layer is the source's result
  (`none` embeds the `-1` sentinel meaning "no pitch").
* In JS, the parabolic `delta` is `NaN` (0/0) or `±Infinity` (x/0) when its
  denominator is zero, and both fail the `!isNaN(delta) && Math.abs(delta) < 1`
  guard; the embedding tests `denominator ≠ 0 ∧ |delta| < 1` explicitly.
* On an empty buffer the JS gate computes `0/0 = NaN`, `NaN < 0.01` is false,
  and the lag-search loop is empty, so `-1` is returned; in `ℚ`, `0/0 = 0`
  takes the `rms < 0.01` early return.  Both paths yield the "no pitch"
  result with no state change and no error raised; the divergence is only in
  which internal branch produces that result.
-/

/-- The pitch-class table of `popup.js` line 22 (`noteStrings`). -/
def noteStrings : List String :=
  ["C", "C#", "D", "D#", "E", "F"] ++ ["F#", "G", "G#", "A", "A#", "B"]

/-- A JS array read `l[i]`: `none` when the index is out of bounds
(JS would produce `undefined`). -/
def jsGet (l : List ℚ) (i : ℤ) : Option ℚ :=
  if 0 ≤ i then l.get? i.toNat else none

/-- `Σ_{i < N} v i ^ 2` — the squared-sample sum of the RMS computation
(`popup.js` lines 178-183). -/
def sumSquares (b : List ℚ) : ℚ :=
  (b.map fun v => v * v).sum

/-- `rms²` of the buffer: `Σ v² / SIZE`.  The source stores `rms = √(this)`;
the embedding keeps the square (see the header comment). -/
def rmsSq (b : List ℚ) : ℚ :=
  sumSquares b / (b.length : ℚ)

/-- The integer interval `[lo, hi)`, the index set of a JS
`for (o = lo; o < hi; o++)` loop. -/
def intRange (lo hi : ℤ) : List ℤ :=
  (List.range (hi - lo).toNat).map fun (k : ℕ) => lo + (k : ℤ)

/-- One iteration of the inner correlation loop of `popup.js` lines 201-203:
`correlation += nb[i] * nb[i + offset]` (raw products; see header comment),
with `none` recording an out-of-bounds read. -/
def corrStep (b : List ℚ) (offset : ℤ) (acc : Option ℚ) (i : ℕ) : Option ℚ :=
  match acc, jsGet b (i : ℤ), jsGet b ((i : ℤ) + offset) with
  | some a, some x, some y => some (a + x * y)
  | _, _, _ => none

/-- The raw correlation sum `Σ_{i < ms} nb[i]·nb[i+offset]` of
`popup.js` lines 201-203 (not yet divided by `rmsSq` and `ms`);
`none` if any read is out of bounds. -/
def corrSum (b : List ℚ) (ms : ℕ) (offset : ℤ) : Option ℚ :=
  (List.range ms).foldl (corrStep b offset) (some 0)

/-- One iteration of the lag-search loop of `popup.js` lines 197-212:
divide the raw sum by `rmsSq` and `MAX_SAMPLES` to get the source's
normalized `correlation`, and update `(best_offset, best_correlation)`
on strict improvement (`correlation > best_correlation`). -/
def peakStep (b : List ℚ) (ms : ℕ) (s : ℚ) (acc : Option (ℤ × ℚ)) (offset : ℤ) :
    Option (ℤ × ℚ) :=
  match acc, corrSum b ms offset with
  | some p, some raw =>
      let c := raw / s / (ms : ℚ)
      some (if p.2 < c then (offset, c) else p)
  | _, _ => none

/-- The full argmax loop of `popup.js` lines 193-212, starting from
`(best_offset, best_correlation) = (-1, 0)`. -/
def bestPeak (b : List ℚ) (ms : ℕ) (s : ℚ) (lo hi : ℤ) : Option (ℤ × ℚ) :=
  (intRange lo hi).foldl (peakStep b ms s) (some ((-1 : ℤ), (0 : ℚ)))

/-- `MIN_OFFSET = Math.floor(sampleRate / MAX_FREQUENCY)` with
`MAX_FREQUENCY = 1000` (`popup.js` line 175). -/
def MIN_OFFSET (r : ℚ) : ℤ := ⌊r / 1000⌋

/-- `MAX_OFFSET = Math.floor(sampleRate / MIN_FREQUENCY)` with
`MIN_FREQUENCY = 82` (`popup.js` line 174). -/
def MAX_OFFSET (r : ℚ) : ℤ := ⌊r / 82⌋

/-- `MAX_SAMPLES = Math.floor(SIZE / 2)` (`popup.js` line 168). -/
def maxSamples (b : List ℚ) : ℕ := b.length / 2

/-- The (exclusive) upper end of the lag-search loop:
`Math.min(MAX_OFFSET, MAX_SAMPLES)` (`popup.js` line 197). -/
def searchHi (b : List ℚ) (r : ℚ) : ℤ :=
  min (MAX_OFFSET r) ((maxSamples b : ℕ) : ℤ)

/-- The best (offset, correlation) pair found by the lag-search loop of
`autoCorrelate` for buffer `b` at sample rate `r`. -/
def bestPeakOf (b : List ℚ) (r : ℚ) : Option (ℤ × ℚ) :=
  bestPeak b (maxSamples b) (rmsSq b) (MIN_OFFSET r) (searchHi b r)

/-- The parabolic-interpolation refinement of `popup.js` lines 222-238:
correlations `c1, c2, c3` at `bo-1, bo, bo+1`,
`delta = 0.5·(c1-c3)/(c1-2·c2+c3)`, applied only when the denominator is
nonzero (JS: `delta` is `NaN`/`±Infinity` otherwise, failing the
`!isNaN(delta) && Math.abs(delta) < 1` guard) and `|delta| < 1`. -/
def refineOffset (b : List ℚ) (ms : ℕ) (s : ℚ) (bo : ℤ) : Option ℚ :=
  match corrSum b ms (bo - 1), corrSum b ms bo, corrSum b ms (bo + 1) with
  | some raw1, some raw2, some raw3 =>
      let c1 := raw1 / s / (ms : ℚ)
      let c2 := raw2 / s / (ms : ℚ)
      let c3 := raw3 / s / (ms : ℚ)
      let delta := (1 / 2 : ℚ) * (c1 - c3) / (c1 - 2 * c2 + c3)
      some (if c1 - 2 * c2 + c3 ≠ 0 ∧ |delta| < 1 then (bo : ℚ) + delta else (bo : ℚ))
  | _, _, _ => none

/-- `autoCorrelate(buffer, sampleRate)` of `popup.js` lines 166-250.
Outer `none` = an out-of-bounds array read occurred (proved impossible);
inner `none` embeds the `-1` "no pitch" sentinel. -/
def autoCorrelate (buffer : List ℚ) (sampleRate : ℚ) : Option (Option ℚ) :=
  if rmsSq buffer < 1 / 10000 then some none
  else
    match bestPeakOf buffer sampleRate with
    | none => none
    | some p =>
      if 1 / 2 < p.2 ∧ p.1 ≠ -1 then
        match (if MIN_OFFSET sampleRate < p.1 ∧ p.1 < MAX_OFFSET sampleRate - 1 then
                refineOffset buffer (maxSamples buffer) (rmsSq buffer) p.1
              else some ((p.1 : ℚ))) with
        | none => none
        | some refined =>
            let frequency := sampleRate / refined
            some (if 82 ≤ frequency ∧ frequency ≤ 1000 then some frequency else none)
      else some none

/-- The mutable module state of `popup.js` lines 7-8: `lastFrequency`
(`-1` when unset) and `frequencyHistory` (oldest first; `push` appends,
`shift` drops the head). -/
structure SmootherState where
  lastFrequency : ℚ
  frequencyHistory : List ℚ
deriving DecidableEq, Repr

/-- `HISTORY_SIZE = 5` (`popup.js` line 254). -/
def HISTORY_SIZE : ℕ := 5

/-- `SMOOTHING_FACTOR = 0.7` (`popup.js` line 255). -/
def SMOOTHING_FACTOR : ℚ := 7 / 10

/-- The history update of `popup.js` lines 257-261: append the raw value,
then drop the oldest entry if the capacity is exceeded. -/
def pushHistory (st : SmootherState) (frequency : ℚ) : List ℚ :=
  let h := st.frequencyHistory ++ [frequency]
  if HISTORY_SIZE < h.length then h.tail else h

/-- `sorted[Math.floor(sorted.length / 2)]` of the sorted copy of a list
(`popup.js` lines 280-281).  JS `sort((a,b) => a-b)` produces the unique
ascending reordering of a list of numbers, which `insertionSort (· ≤ ·)`
also computes. -/
def medianOf (l : List ℚ) : ℚ :=
  let sorted := l.insertionSort (· ≤ ·)
  sorted.getD (sorted.length / 2) 0

/-- `smoothFrequency(frequency)` of `popup.js` lines 253-288, with the
module state made explicit.  Returns (result, new state). -/
def smoothFrequency (frequency : ℚ) (st : SmootherState) : ℚ × SmootherState :=
  let hist := pushHistory st frequency
  let out :=
    if 0 < st.lastFrequency then
      let ratio := frequency / st.lastFrequency
      if |ratio - 1 / 2| < 1 / 10 ∨ |ratio - 2| < 1 / 5 then
        st.lastFrequency * (9 / 10) + frequency * (1 / 10)
      else if |ratio - 1| < 1 / 2 then
        st.lastFrequency * SMOOTHING_FACTOR + frequency * (1 - SMOOTHING_FACTOR)
      else
        if 3 ≤ hist.length then medianOf hist else frequency
    else frequency
  (out, ⟨out, hist⟩)

/-- The state effect of one `detectPitch` frame (`popup.js` lines 106-163):
gate on RMS, run `autoCorrelate`, and feed a positive frequency to the
smoother; display updates are out of scope.  Returns
(new smoother state, emitted smoothed frequency if any); outer `none`
again records an out-of-bounds read inside `autoCorrelate`. -/
def detectPitchStep (buffer : List ℚ) (sampleRate : ℚ) (st : SmootherState) :
    Option (SmootherState × Option ℚ) :=
  if rmsSq buffer < 1 / 10000 then some (st, none)
  else
    match autoCorrelate buffer sampleRate with
    | none => none
    | some (some f) =>
        if 0 < f then
          let r := smoothFrequency f st
          some (r.2, some r.1)
        else some (st, none)
    | some none => some (st, none)

/-- The smoother-state effect of `stopTuner` (`popup.js` lines 100-101):
`lastFrequency = -1; frequencyHistory = []`. -/
def stopTuner (_st : SmootherState) : SmootherState :=
  ⟨-1, []⟩

/-- The concrete 40-sample frame used to exercise the clipped search window:
sample rate 8200 gives `MIN_OFFSET = 8`, `MAX_OFFSET = 100`, and
`MAX_SAMPLES = 20`, so the loop only visits lags 8..19.  The spikes make
lag 19 (the last visited lag) the correlation peak with a nonzero
parabolic correction. -/
def cbuf : List ℚ :=
  [10, 0, 0, 0, 0, 0, 0, 0, 0, 0,
   0, 0, 0, 0, 0, 0, 0, 0, 0, 10,
   0, 0, 0, 0, 0, 0, 0, 0, 0, 0,
   0, 0, 0, 0, 0, 0, 0, 0, 10, 5]

/-- The result record of `frequencyToNote` (`popup.js` lines 300-305).
`name` is `Option`-valued because JS `noteStrings[i]` is `undefined` for a
negative index (`%` in JS keeps the sign of the dividend). -/
structure NoteResult where
  name : Option String
  octave : ℤ
  frequency : ℝ
  midiNote : ℤ

/-- `noteNum = 12 * (Math.log(frequency / 440) / Math.log(2))`
(`popup.js` line 292). -/
noncomputable def noteNumOf (frequency : ℝ) : ℝ :=
  12 * (Real.log (frequency / 440) / Real.log 2)

/-- `frequencyToNote(frequency)` of `popup.js` lines 291-306.
`Math.round x = ⌊x + 1/2⌋` is Lean's `round`; `Math.floor(noteIndex / 12)`
on the integer `noteIndex` is floor division `Int.fdiv`; JS
`noteIndex % 12` is the truncating remainder `Int.tmod` (sign of the
dividend), and a negative JS index reads `undefined` from the table. -/
noncomputable def frequencyToNote (frequency : ℝ) : NoteResult :=
  let noteIndex : ℤ := round (noteNumOf frequency) + 69
  let octave : ℤ := Int.fdiv noteIndex 12 - 1
  let idx : ℤ := Int.tmod noteIndex 12
  let noteName : Option String := if 0 ≤ idx then noteStrings.get? idx.toNat else none
  let idealFrequency : ℝ := 440 * (2 : ℝ) ^ (((noteIndex : ℝ) - 69) / 12)
  ⟨noteName, octave, idealFrequency, noteIndex⟩

/-- `frequencyToCents(frequency, idealFrequency)` of `popup.js`
lines 309-311: `Math.floor(1200 * Math.log(f / ideal) / Math.log(2))`. -/
noncomputable def frequencyToCents (frequency idealFrequency : ℝ) : ℤ :=
  ⌊1200 * Real.log (frequency / idealFrequency) / Real.log 2⌋

attribute [local semireducible] Rat.add Rat.mul Rat.inv Rat.sub

/-- The first component of `smoothFrequency` with a positive previous
frequency and a ratio in one of the octave-suspicion bands. -/
theorem smoothFrequency_fst_octave (st : SmootherState) (F : ℚ)
    (hL : 0 < st.lastFrequency)
    (hband : |F / st.lastFrequency - 1 / 2| < 1 / 10 ∨
      |F / st.lastFrequency - 2| < 1 / 5) :
    (smoothFrequency F st).1 = st.lastFrequency * (9 / 10) + F * (1 / 10) := by
  simp only [smoothFrequency]
  rw [if_pos hL, if_pos hband]

/-- C2: with an existing last frequency `L > 0` and a new raw frequency
`F > 0` whose ratio lies in an octave-suspicion band
(`|r - 0.5| < 0.1` or `|r - 2| < 0.2`), `smoothFrequency` returns exactly
`0.9·L + 0.1·F`; in particular an outlier at exactly twice a previous
220 Hz yields 242 Hz, not 440 Hz. -/
theorem smooth_octave_band_weighted (st : SmootherState) (F : ℚ)
    (hL : 0 < st.lastFrequency) (hF : 0 < F)
    (hband : |F / st.lastFrequency - 1 / 2| < 1 / 10 ∨
      |F / st.lastFrequency - 2| < 1 / 5) :
    (smoothFrequency F st).1 = st.lastFrequency * (9 / 10) + F * (1 / 10) ∧
      (st.lastFrequency = 220 → F = 440 →
        (smoothFrequency F st).1 = 242 ∧ (smoothFrequency F st).1 ≠ 440) := by
  have h := smoothFrequency_fst_octave st F hL hband
  refine ⟨h, fun h220 h440 => ?_⟩
  rw [h, h220, h440]
  norm_num

/-- Witness for C2: previous frequency 220 Hz, new raw frequency 440 Hz. -/
theorem smooth_octave_band_weighted_witness :
    (smoothFrequency 440 ⟨220, [220, 220, 220]⟩).1 = 242 ∧
      (smoothFrequency 440 ⟨220, [220, 220, 220]⟩).1 ≠ 440 :=
  (smooth_octave_band_weighted ⟨220, [220, 220, 220]⟩ 440 (by norm_num)
    (by norm_num) (by norm_num)).2 rfl rfl

/-- The raw value is always a member of the updated history. -/
theorem mem_pushHistory (st : SmootherState) (F : ℚ) : F ∈ pushHistory st F := by
  simp only [pushHistory]
  split
  · rename_i hlen
    cases h : st.frequencyHistory with
    | nil => rw [h] at hlen; simp [HISTORY_SIZE] at hlen
    | cons a t => simp
  · simp

/-- C4: with an existing last frequency `L > 0` and a new raw frequency
`F > 0` whose ratio avoids both octave-suspicion bands and satisfies
`|r - 1| ≥ 0.5`, `smoothFrequency` returns the median of the retained
history (which includes the just-appended `F`) when that history has at
least 3 entries, and the raw `F` otherwise. -/
theorem smooth_large_jump_median (st : SmootherState) (F : ℚ)
    (hL : 0 < st.lastFrequency) (hF : 0 < F)
    (h1 : ¬ |F / st.lastFrequency - 1 / 2| < 1 / 10)
    (h2 : ¬ |F / st.lastFrequency - 2| < 1 / 5)
    (h3 : 1 / 2 ≤ |F / st.lastFrequency - 1|) :
    (3 ≤ (pushHistory st F).length →
        (smoothFrequency F st).1 = medianOf (pushHistory st F)) ∧
      ((pushHistory st F).length < 3 → (smoothFrequency F st).1 = F) ∧
      F ∈ pushHistory st F := by
  have hout : (smoothFrequency F st).1 =
      if 3 ≤ (pushHistory st F).length then medianOf (pushHistory st F) else F := by
    simp only [smoothFrequency]
    rw [if_pos hL, if_neg (not_or.mpr ⟨h1, h2⟩), if_neg (not_lt.mpr h3)]
  refine ⟨fun hlen => ?_, fun hlen => ?_, mem_pushHistory st F⟩
  · rw [hout, if_pos hlen]
  · rw [hout, if_neg (by omega)]

/-- Witness for C4: ratio 5 (a large non-octave jump) with a 3-entry
retained history; the result is the median 100 of `[100, 100, 500]`. -/
theorem smooth_large_jump_median_witness :
    3 ≤ (pushHistory ⟨100, [100, 100]⟩ 500).length ∧
      (smoothFrequency 500 ⟨100, [100, 100]⟩).1 =
        medianOf (pushHistory ⟨100, [100, 100]⟩ 500) :=
  have hb1 : ¬ |(500 : ℚ) / 100 - 1 / 2| < 1 / 10 := by decide
  have hb2 : ¬ |(500 : ℚ) / 100 - 2| < 1 / 5 := by decide
  have hb3 : (1 : ℚ) / 2 ≤ |(500 : ℚ) / 100 - 1| := by decide
  ⟨by decide,
    (smooth_large_jump_median ⟨100, [100, 100]⟩ 500 (by norm_num) (by norm_num)
      hb1 hb2 hb3).1 (by decide)⟩

/-- The updated history always ends with the just-appended raw value. -/
theorem pushHistory_getLast? (st : SmootherState) (F : ℚ) :
    (pushHistory st F).getLast? = some F := by
  simp only [pushHistory]
  split
  · cases h : st.frequencyHistory with
    | nil =>
        rename_i hlen
        rw [h] at hlen
        simp [HISTORY_SIZE] at hlen
    | cons a t => simp
  · simp

/-- C6: after any `smoothFrequency` call on a state within capacity, the
raw input is the newest history entry, the history stays within capacity 5,
it is a suffix of the old history with the raw value appended (FIFO: only
oldest entries are evicted, order preserved), and the stored last frequency
equals the returned value. -/
theorem smooth_history_invariants (st : SmootherState) (F : ℚ)
    (hcap : st.frequencyHistory.length ≤ 5) :
    (smoothFrequency F st).2.frequencyHistory.getLast? = some F ∧
      (smoothFrequency F st).2.frequencyHistory.length ≤ 5 ∧
      (smoothFrequency F st).2.frequencyHistory <:+ st.frequencyHistory ++ [F] ∧
      (smoothFrequency F st).2.lastFrequency = (smoothFrequency F st).1 := by
  have hh : (smoothFrequency F st).2.frequencyHistory = pushHistory st F := rfl
  refine ⟨hh ▸ pushHistory_getLast? st F, ?_, ?_, rfl⟩
  · rw [hh]
    simp only [pushHistory]
    split
    · rename_i hlen
      simp only [HISTORY_SIZE, List.length_append, List.length_singleton] at hlen
      simp only [List.length_tail, List.length_append, List.length_singleton]
      omega
    · rename_i hlen
      simp only [HISTORY_SIZE, List.length_append, List.length_singleton] at hlen
      simp only [List.length_append, List.length_singleton]
      omega
  · rw [hh]
    simp only [pushHistory]
    split
    · exact (st.frequencyHistory ++ [F]).tail_suffix
    · exact List.suffix_refl _

/-- Witness for C6 at an initial state and raw value 100. -/
theorem smooth_history_invariants_witness :
    (([] : List ℚ).length ≤ 5) ∧
      ((smoothFrequency 100 ⟨-1, []⟩).2.frequencyHistory.getLast? = some 100 ∧
        (smoothFrequency 100 ⟨-1, []⟩).2.frequencyHistory.length ≤ 5 ∧
        (smoothFrequency 100 ⟨-1, []⟩).2.frequencyHistory <:+ [] ++ [100] ∧
        (smoothFrequency 100 ⟨-1, []⟩).2.lastFrequency =
          (smoothFrequency 100 ⟨-1, []⟩).1) :=
  ⟨by decide, smooth_history_invariants ⟨-1, []⟩ 100 (by decide)⟩

/-- C7: a frame that produces "no pitch" — whether rejected by the RMS gate
or by `autoCorrelate` returning the no-pitch sentinel — leaves the smoother
state untouched, and only `stopTuner` clears it. -/
theorem noPitch_preserves_smoother (b : List ℚ) (r : ℚ) (st : SmootherState)
    (h : rmsSq b < 1 / 10000 ∨ autoCorrelate b r = some none) :
    detectPitchStep b r st = some (st, none) ∧
      (stopTuner st).lastFrequency = -1 ∧ (stopTuner st).frequencyHistory = [] := by
  refine ⟨?_, rfl, rfl⟩
  unfold detectPitchStep
  rcases h with h | h
  · rw [if_pos h]
  · by_cases hg : rmsSq b < 1 / 10000
    · rw [if_pos hg]
    · rw [if_neg hg, h]

/-- Witness for C7: the empty frame trips the RMS gate and preserves the
state `⟨220, [220]⟩`. -/
theorem noPitch_preserves_smoother_witness :
    detectPitchStep [] 44100 ⟨220, [220]⟩ = some (⟨220, [220]⟩, none) :=
  (noPitch_preserves_smoother [] 44100 ⟨220, [220]⟩ (Or.inl (by decide))).1

/-- C8 (recording what the code actually does): an empty frame is silently
absorbed — `autoCorrelate` returns the ordinary no-pitch sentinel and the
frame step returns normally with the state unchanged; no error of any kind
is raised.  (In JS the empty frame makes `rms` NaN, `NaN < 0.01` is false,
and the empty lag search still returns `-1`; the embedded `ℚ` computation
reaches the same "no pitch" outcome through the RMS branch.) -/
theorem emptyFrame_silently_no_pitch (r : ℚ) (st : SmootherState) :
    autoCorrelate [] r = some none ∧ detectPitchStep [] r st = some (st, none) := by
  have h : rmsSq ([] : List ℚ) < 1 / 10000 := by decide
  constructor
  · unfold autoCorrelate
    rw [if_pos h]
  · unfold detectPitchStep
    rw [if_pos h]

/-- Membership in the loop index set `[lo, hi)`. -/
theorem mem_intRange {lo hi a : ℤ} : a ∈ intRange lo hi ↔ lo ≤ a ∧ a < hi := by
  simp only [intRange, List.mem_map, List.mem_range]
  constructor
  · rintro ⟨k, hk, hka⟩
    omega
  · rintro ⟨h1, h2⟩
    exact ⟨(a - lo).toNat, by omega, by omega⟩

/-- An in-bounds JS read succeeds. -/
theorem jsGet_isSome {l : List ℚ} {i : ℤ} (h0 : 0 ≤ i)
    (hlt : i < (l.length : ℤ)) : (jsGet l i).isSome := by
  unfold jsGet
  rw [if_pos h0, List.get?_eq_getElem?, List.getElem?_eq_getElem (by omega)]
  rfl

/-- Peeling the last iteration off the correlation loop. -/
theorem corrSum_succ (b : List ℚ) (ms : ℕ) (off : ℤ) :
    corrSum b (ms + 1) off = corrStep b off (corrSum b ms off) ms := by
  simp [corrSum, List.range_succ]

/-- The correlation sum succeeds whenever the lag keeps every read in
bounds: `0 ≤ off` and `ms + off ≤ N` (with `ms ≤ N`). -/
theorem corrSum_isSome (b : List ℚ) (off : ℤ) (h0 : 0 ≤ off) :
    ∀ ms : ℕ, ms ≤ b.length → (ms : ℤ) + off ≤ (b.length : ℤ) →
      (corrSum b ms off).isSome := by
  intro ms
  induction ms with
  | zero => intro _ _; exact rfl
  | succ n ih =>
      intro hms hoff
      rw [corrSum_succ]
      obtain ⟨a, ha⟩ := Option.isSome_iff_exists.mp (ih (by omega) (by omega))
      rw [ha]
      obtain ⟨x, hx⟩ := Option.isSome_iff_exists.mp
        (jsGet_isSome (by omega) (by omega) : (jsGet b (n : ℤ)).isSome)
      obtain ⟨y, hy⟩ := Option.isSome_iff_exists.mp
        (jsGet_isSome (by omega) (by omega) : (jsGet b ((n : ℤ) + off)).isSome)
      simp [corrStep, hx, hy]

/-- A failed accumulator stays failed through the lag-search loop. -/
theorem peak_foldl_none (b : List ℚ) (ms : ℕ) (s : ℚ) (l : List ℤ) :
    l.foldl (peakStep b ms s) none = none := by
  induction l with
  | nil => rfl
  | cons hd tl IH => simpa [peakStep] using IH

/-- The lag-search loop succeeds when every visited lag's correlation sum
succeeds. -/
theorem peak_foldl_isSome (b : List ℚ) (ms : ℕ) (s : ℚ) :
    ∀ (l : List ℤ) (q : ℤ × ℚ), (∀ off ∈ l, (corrSum b ms off).isSome) →
      (l.foldl (peakStep b ms s) (some q)).isSome := by
  intro l
  induction l with
  | nil => intro q _; exact rfl
  | cons a l ih =>
      intro q h
      obtain ⟨raw, hraw⟩ := Option.isSome_iff_exists.mp (h a (List.mem_cons_self a l))
      have hstep : peakStep b ms s (some q) a =
          some (if q.2 < raw / s / (ms : ℚ) then (a, raw / s / (ms : ℚ)) else q) := by
        simp [peakStep, hraw]
      rw [List.foldl_cons, hstep]
      exact ih _ fun off hoff => h off (List.mem_cons_of_mem a hoff)

/-- Any successful lag search returns either the initial `-1` offset or one
of the visited lags. -/
theorem peak_foldl_fst_cases (b : List ℚ) (ms : ℕ) (s : ℚ) :
    ∀ (l : List ℤ) (q p : ℤ × ℚ), l.foldl (peakStep b ms s) (some q) = some p →
      p.1 = q.1 ∨ p.1 ∈ l := by
  intro l
  induction l with
  | nil =>
      intro q p h
      simp only [List.foldl_nil, Option.some.injEq] at h
      exact Or.inl (by rw [← h])
  | cons a l ih =>
      intro q p h
      rw [List.foldl_cons] at h
      cases hraw : corrSum b ms a with
      | none =>
          rw [show peakStep b ms s (some q) a = none by simp [peakStep, hraw],
            peak_foldl_none] at h
          exact absurd h (by simp)
      | some raw =>
          rw [show peakStep b ms s (some q) a =
              some (if q.2 < raw / s / (ms : ℚ) then (a, raw / s / (ms : ℚ)) else q) by
            simp [peakStep, hraw]] at h
          rcases ih _ p h with hq | hmem
          · by_cases hc : q.2 < raw / s / (ms : ℚ)
            · rw [if_pos hc] at hq
              exact Or.inr (by rw [hq]; exact List.mem_cons_self a l)
            · rw [if_neg hc] at hq
              exact Or.inl hq
          · exact Or.inr (List.mem_cons_of_mem a hmem)

/-- If the search window contains any lag at all, its lower end
`MIN_OFFSET` is nonnegative (a negative `MIN_OFFSET` forces a negative
sample rate, whose window is empty). -/
theorem search_window_nonneg (b : List ℚ) (r : ℚ) {off : ℤ}
    (hmem : MIN_OFFSET r ≤ off ∧ off < searchHi b r) : 0 ≤ MIN_OFFSET r := by
  by_cases hr : 0 ≤ r
  · exact Int.floor_nonneg.mpr (by positivity)
  · push_neg at hr
    exfalso
    have hdiv : r / 82 ≤ r / 1000 := by
      rw [div_eq_mul_inv, div_eq_mul_inv]
      exact mul_le_mul_of_nonpos_left (by norm_num) hr.le
    have hle : MAX_OFFSET r ≤ MIN_OFFSET r := Int.floor_mono hdiv
    have hmin : searchHi b r ≤ MAX_OFFSET r := min_le_left _ _
    omega

/-- Every lag visited by the search loop keeps the correlation reads in
bounds. -/
theorem corrSum_isSome_of_window (b : List ℚ) (r : ℚ) {off : ℤ}
    (hlo : MIN_OFFSET r ≤ off) (hhi : off < searchHi b r) :
    (corrSum b (maxSamples b) off).isSome := by
  have h0 : 0 ≤ off := le_trans (search_window_nonneg b r ⟨hlo, hhi⟩) hlo
  have hofflt : off < ((maxSamples b : ℕ) : ℤ) :=
    lt_of_lt_of_le hhi (min_le_right _ _)
  have h2 : 2 * maxSamples b ≤ b.length := by
    have : maxSamples b = b.length / 2 := rfl
    omega
  exact corrSum_isSome b off h0 (maxSamples b) (by omega) (by omega)

/-- The lag search of `autoCorrelate` never reads out of bounds. -/
theorem bestPeakOf_isSome (b : List ℚ) (r : ℚ) : (bestPeakOf b r).isSome := by
  apply peak_foldl_isSome
  intro off hoff
  rw [mem_intRange] at hoff
  exact corrSum_isSome_of_window b r hoff.1 hoff.2

/-- The best offset is `-1` (no update ever happened) or a visited lag. -/
theorem bestPeakOf_fst_cases (b : List ℚ) (r : ℚ) (p : ℤ × ℚ)
    (h : bestPeakOf b r = some p) :
    p.1 = -1 ∨ (MIN_OFFSET r ≤ p.1 ∧ p.1 < searchHi b r) := by
  rcases peak_foldl_fst_cases b (maxSamples b) (rmsSq b) _ _ p h with hq | hmem
  · exact Or.inl hq
  · exact Or.inr (mem_intRange.mp hmem)

/-- The parabolic refinement never reads out of bounds when the best lag
is a visited lag away from 0 and below `MAX_SAMPLES`. -/
theorem refineOffset_isSome (b : List ℚ) (s : ℚ) {bo : ℤ} (h1 : 1 ≤ bo)
    (h2 : bo + 1 ≤ ((maxSamples b : ℕ) : ℤ)) :
    (refineOffset b (maxSamples b) s bo).isSome := by
  have hlen : 2 * maxSamples b ≤ b.length := by
    unfold maxSamples
    omega
  obtain ⟨r1, hr1⟩ := Option.isSome_iff_exists.mp
    (corrSum_isSome b (bo - 1) (by omega) (maxSamples b) (by omega) (by omega))
  obtain ⟨r2, hr2⟩ := Option.isSome_iff_exists.mp
    (corrSum_isSome b bo (by omega) (maxSamples b) (by omega) (by omega))
  obtain ⟨r3, hr3⟩ := Option.isSome_iff_exists.mp
    (corrSum_isSome b (bo + 1) (by omega) (maxSamples b) (by omega) (by omega))
  simp [refineOffset, hr1, hr2, hr3]

/-- `autoCorrelate` always returns: no execution path reads out of
bounds. -/
theorem autoCorrelate_total (b : List ℚ) (r : ℚ) :
    ∃ res, autoCorrelate b r = some res := by
  unfold autoCorrelate
  by_cases hg : rmsSq b < 1 / 10000
  · rw [if_pos hg]
    exact ⟨none, rfl⟩
  · rw [if_neg hg]
    obtain ⟨p, hp⟩ := Option.isSome_iff_exists.mp (bestPeakOf_isSome b r)
    simp only [hp]
    by_cases hcorr : 1 / 2 < p.2 ∧ p.1 ≠ -1
    · rw [if_pos hcorr]
      by_cases hint : MIN_OFFSET r < p.1 ∧ p.1 < MAX_OFFSET r - 1
      · rw [if_pos hint]
        rcases bestPeakOf_fst_cases b r p hp with hneg | hwin
        · exact absurd hneg hcorr.2
        · have h0 : 0 ≤ MIN_OFFSET r := search_window_nonneg b r hwin
          have hms : p.1 < ((maxSamples b : ℕ) : ℤ) :=
            lt_of_lt_of_le hwin.2 (min_le_right _ _)
          have hbo1 : 1 ≤ p.1 := by omega
          have hbo2 : p.1 + 1 ≤ ((maxSamples b : ℕ) : ℤ) := by omega
          obtain ⟨ro, hro⟩ := Option.isSome_iff_exists.mp
            (refineOffset_isSome b (rmsSq b) hbo1 hbo2)
          rw [hro]
          exact ⟨_, rfl⟩
      · rw [if_neg hint]
        exact ⟨_, rfl⟩
    · rw [if_neg hcorr]
      exact ⟨none, rfl⟩

/-- C10: the `Option`-indexed embedding of `autoCorrelate` never hits an
out-of-bounds read on any buffer and sample rate: every lag visited by the
correlation loop satisfies `i + offset < N`, and the refinement reads at
`best_offset ± 1` stay within `[0, N)`. -/
theorem autoCorrelate_no_out_of_bounds (b : List ℚ) (r : ℚ) :
    ∃ res, autoCorrelate b r = some res :=
  autoCorrelate_total b r

/-- Any frequency actually returned passed the final range re-validation. -/
theorem autoCorrelate_mem_range {b : List ℚ} {r f : ℚ}
    (h : autoCorrelate b r = some (some f)) : 82 ≤ f ∧ f ≤ 1000 := by
  unfold autoCorrelate at h
  by_cases hg : rmsSq b < 1 / 10000
  · rw [if_pos hg] at h
    exact absurd h (by simp)
  · rw [if_neg hg] at h
    cases hbp : bestPeakOf b r with
    | none =>
        rw [hbp] at h
        exact absurd h (by simp)
    | some p =>
        simp only [hbp] at h
        by_cases hcorr : 1 / 2 < p.2 ∧ p.1 ≠ -1
        · rw [if_pos hcorr] at h
          cases hro : (if MIN_OFFSET r < p.1 ∧ p.1 < MAX_OFFSET r - 1 then
              refineOffset b (maxSamples b) (rmsSq b) p.1 else some ((p.1 : ℚ))) with
          | none =>
              rw [hro] at h
              exact absurd h (by simp)
          | some ro =>
              simp only [hro] at h
              by_cases hrange : 82 ≤ r / ro ∧ r / ro ≤ 1000
              · rw [if_pos hrange] at h
                simp only [Option.some.injEq] at h
                rw [← h]
                exact hrange
              · rw [if_neg hrange] at h
                exact absurd h (by simp)
        · rw [if_neg hcorr] at h
          exact absurd h (by simp)

/-- C1: `autoCorrelate` returns either the no-pitch sentinel or a frequency
inside `[MIN_FREQUENCY, MAX_FREQUENCY] = [82, 1000]` (both ends allowed by
the final `≥`/`≤` re-validation), and it returns "no pitch" whenever the
best normalized correlation over the search window is `≤ 0.5`. -/
theorem autoCorrelate_range_gate (b : List ℚ) (r : ℚ) :
    (autoCorrelate b r = some none ∨
      ∃ f, autoCorrelate b r = some (some f) ∧ 82 ≤ f ∧ f ≤ 1000) ∧
    (∀ p : ℤ × ℚ, bestPeakOf b r = some p → p.2 ≤ 1 / 2 →
      autoCorrelate b r = some none) := by
  constructor
  · obtain ⟨res, hres⟩ := autoCorrelate_total b r
    cases res with
    | none => exact Or.inl hres
    | some f => exact Or.inr ⟨f, hres, autoCorrelate_mem_range hres⟩
  · intro p hp hle
    unfold autoCorrelate
    by_cases hg : rmsSq b < 1 / 10000
    · rw [if_pos hg]
    · rw [if_neg hg]
      simp only [hp]
      rw [if_neg fun hc => absurd hc.1 (not_lt.mpr hle)]

/-- Witness for C1: a silent buffer leaves `(best_offset, best_correlation)`
at the initial `(-1, 0)`, and `0 ≤ 0.5` forces the no-pitch result. -/
theorem autoCorrelate_range_gate_witness :
    autoCorrelate [0, 0, 0, 0] 8200 = some none :=
  (autoCorrelate_range_gate [0, 0, 0, 0] 8200).2 (-1, 0) (by decide) (by decide)

/-- C5 (amended): the parabolic refinement is applied exactly when the best
lag is strictly interior to the UNCLIPPED range `[MIN_OFFSET, MAX_OFFSET)`
— the code tests `best_offset > MIN_OFFSET && best_offset < MAX_OFFSET - 1`,
not the clipped bound `min(MAX_OFFSET, MAX_SAMPLES)` — and the correction
`delta = 0.5·(c1-c3)/(c1-2·c2+c3)` is added only when it is finite and
`|delta| < 1`; the returned frequency is `sampleRate / offset` with the
refined or unrefined offset, subject to the final range check. -/
theorem autoCorrelate_refinement_rule (b : List ℚ) (r : ℚ) (p : ℤ × ℚ)
    (hrms : ¬ rmsSq b < 1 / 10000) (hpeak : bestPeakOf b r = some p)
    (hcorr : 1 / 2 < p.2) (hbo : p.1 ≠ -1) :
    (¬ (MIN_OFFSET r < p.1 ∧ p.1 < MAX_OFFSET r - 1) →
      autoCorrelate b r =
        some (if 82 ≤ r / (p.1 : ℚ) ∧ r / (p.1 : ℚ) ≤ 1000
          then some (r / (p.1 : ℚ)) else none)) ∧
    ((MIN_OFFSET r < p.1 ∧ p.1 < MAX_OFFSET r - 1) →
      ∀ raw1 raw2 raw3 : ℚ,
        corrSum b (maxSamples b) (p.1 - 1) = some raw1 →
        corrSum b (maxSamples b) p.1 = some raw2 →
        corrSum b (maxSamples b) (p.1 + 1) = some raw3 →
        let c1 := raw1 / rmsSq b / (maxSamples b : ℚ)
        let c2 := raw2 / rmsSq b / (maxSamples b : ℚ)
        let c3 := raw3 / rmsSq b / (maxSamples b : ℚ)
        let delta := (1 / 2 : ℚ) * (c1 - c3) / (c1 - 2 * c2 + c3)
        let refined := if c1 - 2 * c2 + c3 ≠ 0 ∧ |delta| < 1
          then (p.1 : ℚ) + delta else (p.1 : ℚ)
        autoCorrelate b r =
          some (if 82 ≤ r / refined ∧ r / refined ≤ 1000
            then some (r / refined) else none)) := by
  constructor
  · intro hint
    unfold autoCorrelate
    rw [if_neg hrms]
    simp only [hpeak]
    rw [if_pos ⟨hcorr, hbo⟩, if_neg hint]
  · intro hint raw1 raw2 raw3 h1 h2 h3
    simp only []
    unfold autoCorrelate
    rw [if_neg hrms]
    simp only [hpeak]
    rw [if_pos ⟨hcorr, hbo⟩, if_pos hint]
    unfold refineOffset
    simp only [h1, h2, h3]

set_option maxRecDepth 100000 in
/-- Witness for C5 on `cbuf`: the peak is at lag 19 with correlation 16/13,
the refinement guard passes (19 is interior to the unclipped `[8, 100)`),
`delta = 1/14`, and the returned frequency is `8200 / (19 + 1/14)`. -/
theorem autoCorrelate_refinement_rule_witness :
    autoCorrelate cbuf 8200 = some (some (114800 / 267)) := by
  have hrms : ¬ rmsSq cbuf < 1 / 10000 := by decide
  have hpk : bestPeakOf cbuf 8200 = some (19, 16 / 13) := by decide
  have h := (autoCorrelate_refinement_rule cbuf 8200 (19, 16 / 13) hrms hpk
      (by decide) (by decide)).2 (by decide) 0 200 50
      (by decide) (by decide) (by decide)
  rw [h]
  decide

set_option maxRecDepth 100000 in
/-- Counterexample to C5 as stated: on `cbuf` at sample rate 8200 the
search window is `[MIN_OFFSET, min(MAX_OFFSET, MAX_SAMPLES)) = [8, 20)`,
the best lag 19 is the last element of that window — NOT strictly interior
to it — yet the refinement is still applied: the returned frequency
`8200/(19 + 1/14)` differs from the unrefined `8200/19`, because the code
tests interiority against the unclipped `MAX_OFFSET - 1 = 99`. -/
theorem autoCorrelate_refinement_clipped_counterexample :
    bestPeakOf cbuf 8200 = some (19, 16 / 13) ∧
      ¬ (MIN_OFFSET 8200 < 19 ∧ (19 : ℤ) + 1 < searchHi cbuf 8200) ∧
      autoCorrelate cbuf 8200 = some (some (114800 / 267)) ∧
      (114800 / 267 : ℚ) ≠ 8200 / ((19 : ℤ) : ℚ) := by decide

/-- The source's `12 * (Math.log(f/440) / Math.log 2)` is the base-2
logarithm formula of the spec (definitional: `logb b x = log x / log b`). -/
theorem noteNumOf_eq_logb (f : ℝ) : noteNumOf f = 12 * Real.logb 2 (f / 440) := rfl

/-- At the reference frequency the note number is exactly 0. -/
theorem noteNumOf_440 : noteNumOf 440 = 0 := by
  rw [noteNumOf_eq_logb]
  norm_num

/-- Concrete evaluation: 440 Hz maps to A4, MIDI 69, ideal frequency 440. -/
theorem f2n_440 : frequencyToNote 440 = ⟨some "A", 4, 440, 69⟩ := by
  unfold frequencyToNote
  rw [noteNumOf_440, round_zero]
  norm_num [Real.rpow_zero]
  decide

/-- Concrete evaluation: `cents(440, 440) = 0`. -/
theorem cents_440 : frequencyToCents 440 440 = 0 := by
  unfold frequencyToCents
  norm_num

/-- C3 (amended: for frequencies whose MIDI number is nonnegative):
`frequencyToNote` returns `midi = round(12·log2(f/440)) + 69`,
`octave = ⌊midi/12⌋ - 1`, the pitch-class table entry at `midi mod 12`,
and `ideal = 440·2^((midi-69)/12)`; and `map_to_note(440) =
{A, 4, 440, 69}` with `cents(440, 440) = 0`.  (For `midi < 0` the JS `%`
is negative and the table read is `undefined`; see the counterexample.) -/
theorem frequencyToNote_spec_formulas (f : ℝ) (hf : 0 < f)
    (hmid : 0 ≤ round (12 * Real.logb 2 (f / 440)) + 69) :
    (frequencyToNote f).midiNote = round (12 * Real.logb 2 (f / 440)) + 69 ∧
    (frequencyToNote f).octave = (round (12 * Real.logb 2 (f / 440)) + 69) / 12 - 1 ∧
    (frequencyToNote f).name =
      noteStrings.get? (((round (12 * Real.logb 2 (f / 440)) + 69) % 12).toNat) ∧
    (frequencyToNote f).frequency =
      440 * (2 : ℝ) ^ ((((round (12 * Real.logb 2 (f / 440)) + 69 : ℤ) : ℝ) - 69) / 12) ∧
    frequencyToNote 440 = ⟨some "A", 4, 440, 69⟩ ∧
    frequencyToCents 440 440 = 0 := by
  have hnn : round (noteNumOf f) = round (12 * Real.logb 2 (f / 440)) := rfl
  refine ⟨?_, ?_, ?_, ?_, f2n_440, cents_440⟩
  · show round (noteNumOf f) + 69 = _
    rw [hnn]
  · show Int.fdiv (round (noteNumOf f) + 69) 12 - 1 = _
    rw [hnn, Int.fdiv_eq_ediv _ (by norm_num)]
  · show (if 0 ≤ Int.tmod (round (noteNumOf f) + 69) 12 then
        noteStrings.get? (Int.tmod (round (noteNumOf f) + 69) 12).toNat else none) = _
    rw [hnn, Int.tmod_eq_emod hmid (by norm_num)]
    rw [if_pos (Int.emod_nonneg _ (by norm_num))]
  · show (440 : ℝ) * 2 ^ ((((round (noteNumOf f) + 69 : ℤ) : ℝ) - 69) / 12) = _
    rw [hnn]

/-- Witness for C3 at the reference input 440 Hz. -/
theorem frequencyToNote_spec_formulas_witness :
    (frequencyToNote 440).midiNote = round (12 * Real.logb 2 ((440 : ℝ) / 440)) + 69 ∧
      frequencyToNote 440 = ⟨some "A", 4, 440, 69⟩ :=
  ⟨(frequencyToNote_spec_formulas 440 (by norm_num) (by norm_num)).1,
    (frequencyToNote_spec_formulas 440 (by norm_num) (by norm_num)).2.2.2.2.1⟩

/-- Counterexample to C3 as stated (quantified over every positive
frequency): at `f = 55/8 = 6.875` Hz the note number is exactly `-72`
(since `6.875/440 = 2^(-6)`), so the MIDI number is `-3`; the pitch-class
table at `(-3) mod 12 = 9` is `"A"`, but the code's JS remainder is `-3`
and `noteStrings[-3]` is `undefined` — no name is produced. -/
theorem frequencyToNote_neg_midi_counterexample :
    (frequencyToNote (55 / 8 : ℝ)).midiNote = -3 ∧
      (frequencyToNote (55 / 8 : ℝ)).name = none ∧
      noteStrings.get? (((-3 : ℤ) % 12).toNat) = some "A" := by
  have hq : (2 : ℝ) ^ (-6 : ℝ) = ((55 : ℝ) / 8) / 440 := by
    rw [show ((-6 : ℝ)) = -((6 : ℕ) : ℝ) by norm_num, Real.rpow_neg (by norm_num),
      Real.rpow_natCast]
    norm_num
  have hlogb : Real.logb 2 (((55 : ℝ) / 8) / 440) = -6 := by
    rw [← hq, Real.logb_rpow (by norm_num) (by norm_num)]
  have hround : round (noteNumOf (55 / 8 : ℝ)) = -72 := by
    rw [noteNumOf_eq_logb]
    rw [show (55 / 8 : ℝ) / 440 = ((55 : ℝ) / 8) / 440 by norm_num, hlogb]
    rw [show (12 : ℝ) * (-6) = ((-72 : ℤ) : ℝ) by norm_num, round_intCast]
  refine ⟨?_, ?_, by decide⟩
  · show round (noteNumOf (55 / 8 : ℝ)) + 69 = -3
    rw [hround]
    norm_num
  · show (if 0 ≤ Int.tmod (round (noteNumOf (55 / 8 : ℝ)) + 69) 12 then
        noteStrings.get? (Int.tmod (round (noteNumOf (55 / 8 : ℝ)) + 69) 12).toNat
      else none) = none
    rw [hround]
    decide

/-- C9: the cents deviation of any positive frequency against its own
mapped note's ideal frequency lies in `[-50, 50]`: the residual of
rounding satisfies `|noteNum - round noteNum| ≤ 1/2` and cents is the
floor of 100 times that residual. -/
theorem cents_within_pm50 (f : ℝ) (hf : 0 < f) :
    -50 ≤ frequencyToCents f (frequencyToNote f).frequency ∧
      frequencyToCents f (frequencyToNote f).frequency ≤ 50 := by
  have hfreq : (frequencyToNote f).frequency =
      440 * (2 : ℝ) ^ ((((round (noteNumOf f) : ℤ) : ℝ)) / 12) := by
    show (440 : ℝ) * 2 ^ ((((round (noteNumOf f) + 69 : ℤ) : ℝ) - 69) / 12) = _
    norm_num
  have hcents : frequencyToCents f (frequencyToNote f).frequency =
      ⌊100 * (noteNumOf f - (round (noteNumOf f) : ℝ))⌋ := by
    rw [hfreq]
    unfold frequencyToCents
    congr 1
    have h2 : (0 : ℝ) < 2 := two_pos
    have hpow : ((2 : ℝ) ^ (((round (noteNumOf f) : ℤ) : ℝ) / 12)) ≠ 0 :=
      (Real.rpow_pos_of_pos h2 _).ne'
    rw [show f / (440 * 2 ^ (((round (noteNumOf f) : ℤ) : ℝ) / 12)) =
        (f / 440) / 2 ^ (((round (noteNumOf f) : ℤ) : ℝ) / 12) by
      rw [div_div]]
    rw [mul_div_assoc, Real.log_div_log,
      Real.logb_div (by positivity) hpow, Real.logb_rpow h2 (by norm_num)]
    rw [noteNumOf_eq_logb]
    ring
  rw [hcents]
  have habs := abs_sub_round (noteNumOf f)
  rw [abs_le] at habs
  constructor
  · apply Int.le_floor.mpr
    push_cast
    linarith
  · have h1 : (⌊100 * (noteNumOf f - (round (noteNumOf f) : ℝ))⌋ : ℝ) ≤
        100 * (noteNumOf f - (round (noteNumOf f) : ℝ)) := Int.floor_le _
    have h2 : 100 * (noteNumOf f - (round (noteNumOf f) : ℝ)) ≤ 50 := by linarith
    exact_mod_cast le_trans h1 h2

/-- Witness for C9 at 440 Hz. -/
theorem cents_within_pm50_witness :
    -50 ≤ frequencyToCents 440 (frequencyToNote 440).frequency ∧
      frequencyToCents 440 (frequencyToNote 440).frequency ≤ 50 :=
  cents_within_pm50 440 (by norm_num)
